import Mathlib

/-!
Verification development for the veda-anchor-ui process census and
event-persistence engine.

The Go sources embedded here:
* `wails-app/internal/app/logging.go` — two coexisting variants of the
  process event logger: a reference-counting variant (`loggerState` with
  `runningProcs : map[int32]string` and `runningAppCounts : map[string]int`)
  and a boolean-map variant (global `loggedApps : map[string]bool` plus a
  local `runningProcs : map[int32]bool`).
* `wails-app/internal/platform/app_filter/rules_windows.go` —
  `ShouldExclude` and `ShouldTrack`.
* the database writer (`StartDatabaseWriter`, `EnqueueWrite`) — single
  consumer draining a FIFO channel of write requests.

Go maps are embedded as association lists with unique keys (reads of a
missing key return the zero value, as in Go); process handles are embedded
as a `ProcInfo` record carrying the answers the OS capability layer would
give for that process during the tick.  Time is `Int` (Unix seconds), pids
are `Nat`.
-/

namespace VedaAnchor

/-- Association-list embedding of a Go map read: first binding of the key. -/
def alookup {α β : Type} [DecidableEq α] : List (α × β) → α → Option β
  | [], _ => none
  | e :: rest, k => if e.1 = k then some e.2 else alookup rest k

/-- Go map read with zero value `d` for a missing key. -/
def alookupD {α β : Type} [DecidableEq α] (m : List (α × β)) (k : α) (d : β) : β :=
  (alookup m k).getD d

/-- Go map assignment `m[k] = v`: replace the binding in place, or append. -/
def aset {α β : Type} [DecidableEq α] : List (α × β) → α → β → List (α × β)
  | [], k, v => [(k, v)]
  | e :: rest, k, v => if e.1 = k then (k, v) :: rest else e :: aset rest k v

/-- Go map deletion `delete(m, k)`. -/
def aerase {α β : Type} [DecidableEq α] : List (α × β) → α → List (α × β)
  | [], _ => []
  | e :: rest, k => if e.1 = k then aerase rest k else e :: aerase rest k

/-- Embedding of `strings.Contains` on the character sequence. -/
def strContains (s sub : String) : Bool := decide (sub.data <:+: s.data)

/-- Embedding of `strings.HasSuffix` (used for the `conhost.exe` check). -/
def strEndsWith (s sub : String) : Bool := decide (sub.data <:+ s.data)

/-- Embedding of `strings.ToLower` (ASCII case folding; every comparison in
the embedded code is against an ASCII literal). -/
def strToLower (s : String) : String := ⟨s.data.map Char.toLower⟩

/-- Snapshot of one OS process during a tick, together with the answers the
capability layer (gopsutil, `window`, `integrity`, `executable`) gives for
it.  `none` models the corresponding Go call returning an error. -/
structure ProcInfo where
  pid : Nat
  name : Option String
  exe : Option String
  parentName : Option String
  hasVisibleWindow : Bool
  productName : Option String
  integrityLevel : Option Nat
deriving DecidableEq, Repr

/-- Modelled from the spec: the `integrity` package is not part of the
sources; its ordered integrity scale has a "system" threshold
(`integrity.SystemRID`, the Windows system mandatory level). -/
def SystemRID : Nat := 16384

/-- Embedding of `app_filter.ShouldExclude` (rules_windows.go): ProcGuard
itself, conhost.exe, System32/SysWOW64 paths, the Windows product-name
branding, and system-integrity processes are excluded. -/
def ShouldExclude (exePath : String) (p : ProcInfo) : Bool :=
  let exePathLower := strToLower exePath
  if strContains exePathLower "procguard.exe" then true
  else if strEndsWith exePathLower "conhost.exe" then true
  else if strContains exePathLower "\\windows\\system32\\" then true
  else if strContains exePathLower "\\windows\\syswow64\\" then true
  else if (match p.productName with
           | some pn => strContains pn "Microsoft® Windows® Operating System"
           | none => false) then true
  else match p.integrityLevel with
       | some il => decide (SystemRID ≤ il)
       | none => false

/-- Embedding of `app_filter.ShouldTrack` (rules_windows.go): shells only
when launched by explorer.exe; otherwise a visible window is required (the
explorer-parent branch and the default branch both return true; the
exePath argument is taken but, as in the source, unused). -/
def ShouldTrack (_exePath : String) (p : ProcInfo) : Bool :=
  match p.name with
  | none => false
  | some name =>
    let nameLower := strToLower name
    if nameLower = "cmd.exe" ∨ nameLower = "powershell.exe" ∨ nameLower = "pwsh.exe" then
      match p.parentName with
      | some parentName => strToLower parentName = "explorer.exe"
      | none => false
    else if ¬ p.hasVisibleWindow then false
    else true

/-- One queued write request, as enqueued by `write.EnqueueWrite`: either
the end-time update `UPDATE app_events SET end_time = ? WHERE pid = ? AND
end_time IS NULL`, or the insert `INSERT INTO app_events (process_name,
pid, parent_process_name, exe_path, start_time) VALUES (?, ?, ?, ?, ?)`. -/
inductive Write where
  | endUpdate (endTime : Int) (pid : Nat) : Write
  | insertEvent (processName : String) (pid : Nat) (parentProcessName : String)
      (exePath : String) (startTime : Int) : Write
deriving DecidableEq, Repr

/-- One row of the `app_events` table. -/
structure AppEventRow where
  processName : String
  pid : Nat
  parentProcessName : String
  exePath : String
  startTime : Int
  endTime : Option Int
deriving DecidableEq, Repr

/-- Executing one write request against the store: the end update closes
every open row of the pid; the insert appends a fresh open row. -/
def applyWrite (db : List AppEventRow) : Write → List AppEventRow
  | Write.endUpdate t pid =>
      db.map fun r =>
        if r.pid = pid ∧ r.endTime = none then
          { r with endTime := some t }
        else r
  | Write.insertEvent n pid par exe t => db ++ [⟨n, pid, par, exe, t, none⟩]

/-- Executing a sequence of writes in FIFO order. -/
def applyWrites (db : List AppEventRow) (ws : List Write) : List AppEventRow :=
  ws.foldl applyWrite db

/-- Number of rows of the given pid whose end_time is NULL. -/
def openRowCount (db : List AppEventRow) (pid : Nat) : Nat :=
  (db.filter fun r => decide (r.pid = pid ∧ r.endTime = none)).length

/-- Embedding of `data.StartDatabaseWriter`: the consumer drains requests
in FIFO order; `execFails` tells whether `db.Exec` fails on a request, in
which case the failure is logged and the request is dropped with no retry. -/
def StartDatabaseWriter (execFails : Write → Bool) :
    List AppEventRow → List Write → List AppEventRow
  | db, [] => db
  | db, req :: rest =>
    if execFails req then StartDatabaseWriter execFails db rest
    else StartDatabaseWriter execFails (applyWrite db req) rest

/-- Capacity of `resetLoggerCh = make(chan struct\x7b\x7d, 1)`. -/
def resetLoggerChCap : Nat := 1

/-- Go send `ch <- v` on a buffered channel with `pending` queued items:
the send completes at once iff the buffer has room, otherwise the sender
blocks (`none`) until the receiver drains a slot — it is not dropped. -/
def chanSend (pending : Nat) : Option Nat :=
  if pending < resetLoggerChCap then some (pending + 1) else none

/-- Embedding of `ResetLoggedApps`: a plain (blocking) send on the reset
channel. -/
def ResetLoggedApps (pending : Nat) : Option Nat := chanSend pending

namespace RefCount

/-- Embedding of `loggerState` (reference-counting variant):
`runningProcs : map[int32]string` (pid to lowercase name) and
`runningAppCounts : map[string]int` (lowercase name to instance count). -/
structure LoggerState where
  runningProcs : List (Nat × String)
  runningAppCounts : List (String × Int)
deriving DecidableEq, Repr

/-- Fresh state as built in `StartProcessEventLogger`. -/
def initialLoggerState : LoggerState := ⟨[], []⟩

/-- State update of `logEndedProcesses` for one ended entry: the binding
is deleted from the ledger and the name's count decremented (the count
mapping is deleted when the decremented value is zero or less, exactly the
Go `--` followed by the `<= 0` delete). -/
def removeEntry (s : LoggerState) (pid : Nat) (nameLower : String) : LoggerState :=
  let c := alookupD s.runningAppCounts nameLower 0 - 1
  let counts :=
    if c ≤ 0 then aerase s.runningAppCounts nameLower
    else aset s.runningAppCounts nameLower c
  ⟨aerase s.runningProcs pid, counts⟩

/-- Loop body of `logEndedProcesses`, iterating over the ledger entries:
an entry whose pid is absent from the current snapshot gets an end-time
update enqueued, is removed from the ledger, and its name's count is
decremented. -/
def endedLoop (now : Int) (currentPids : List Nat) :
    List (Nat × String) → LoggerState → LoggerState × List Write
  | [], s => (s, [])
  | (pid, nameLower) :: rest, s =>
    if pid ∈ currentPids then endedLoop now currentPids rest s
    else
      let r := endedLoop now currentPids rest (removeEntry s pid nameLower)
      (r.1, Write.endUpdate now pid :: r.2)

/-- Embedding of `logEndedProcesses` (reference-counting variant). -/
def logEndedProcesses (s : LoggerState) (currentPids : List Nat) (now : Int) :
    LoggerState × List Write :=
  endedLoop now currentPids s.runningProcs s

/-- Loop body of `logNewProcesses` (reference-counting variant) for one
process of the snapshot: skip known pids and metadata failures; Rule 1
records excluded pids without counting; Rule 2 folds an additional
instance of an already-logged name into the count without an insert;
Rule 3 requires trackability; otherwise an AppEvent insert is enqueued. -/
def processNewProc (now : Int) (acc : LoggerState × List Write) (p : ProcInfo) :
    LoggerState × List Write :=
  let s := acc.1
  if (alookup s.runningProcs p.pid).isSome then acc
  else match p.name with
  | none => acc
  | some name =>
    if name = "" then acc
    else
      let nameLower := strToLower name
      match p.exe with
      | none => acc
      | some exePath =>
        if ShouldExclude exePath p then
          (⟨aset s.runningProcs p.pid nameLower, s.runningAppCounts⟩, acc.2)
        else if 0 < alookupD s.runningAppCounts nameLower 0 then
          (⟨aset s.runningProcs p.pid nameLower,
            aset s.runningAppCounts nameLower
              (alookupD s.runningAppCounts nameLower 0 + 1)⟩, acc.2)
        else if ¬ ShouldTrack exePath p then acc
        else
          let parentName := p.parentName.getD ""
          (⟨aset s.runningProcs p.pid nameLower,
            aset s.runningAppCounts nameLower
              (alookupD s.runningAppCounts nameLower 0 + 1)⟩,
           acc.2 ++ [Write.insertEvent name p.pid parentName exePath now])

/-- Embedding of `logNewProcesses` (reference-counting variant). -/
def logNewProcesses (s : LoggerState) (procs : List ProcInfo) (now : Int) :
    LoggerState × List Write :=
  procs.foldl (processNewProc now) (s, [])

/-- One ticker iteration of the monitor loop: build the current pid set,
process ended processes first, then new processes; writes are enqueued in
exactly that order. -/
def tickStep (s : LoggerState) (procs : List ProcInfo) (now : Int) :
    LoggerState × List Write :=
  let currentPids := procs.map ProcInfo.pid
  let r1 := logEndedProcesses s currentPids now
  let r2 := logNewProcesses r1.1 procs now
  (r2.1, r1.2 ++ r2.2)

/-- One observable input of the monitor loop's select: a ticker tick with
the processes the OS reports (and the current time), or a reset signal. -/
inductive Event where
  | tick (procs : List ProcInfo) (now : Int) : Event
  | reset : Event
deriving DecidableEq, Repr

/-- One iteration of the monitor loop's select statement, accumulating the
writes enqueued so far.  The reset case replaces both maps with empty ones
and enqueues nothing. -/
def stepLogger (acc : LoggerState × List Write) (e : Event) : LoggerState × List Write :=
  match e with
  | Event.tick procs now =>
    let r := tickStep acc.1 procs now
    (r.1, acc.2 ++ r.2)
  | Event.reset => (⟨[], []⟩, acc.2)

/-- The monitor loop run on a sequence of events from a given state. -/
def runLogger (s : LoggerState) (events : List Event) : LoggerState × List Write :=
  events.foldl stepLogger (s, [])

/-- Loop body of `initializeRunningProcs` for one open AppEvent row
(pid, process_name): a live pid is entered into the ledger under its
lowercase name (count incremented); a dead pid gets an end-time update
with the current timestamp enqueued. -/
def initRow (pidExists : Nat → Bool) (now : Int) (acc : LoggerState × List Write)
    (row : Nat × String) : LoggerState × List Write :=
  if pidExists row.1 then
    let nameLower := strToLower row.2
    (⟨aset acc.1.runningProcs row.1 nameLower,
      aset acc.1.runningAppCounts nameLower
        (alookupD acc.1.runningAppCounts nameLower 0 + 1)⟩, acc.2)
  else (acc.1, acc.2 ++ [Write.endUpdate now row.1])

/-- Embedding of `initializeRunningProcs` (reference-counting variant):
seed the ledger from the open AppEvent rows, re-validating each recorded
pid against the live process table. -/
def initializeRunningProcs (rows : List (Nat × String)) (pidExists : Nat → Bool)
    (now : Int) : LoggerState × List Write :=
  rows.foldl (initRow pidExists now) (⟨⟨[], []⟩, []⟩)

end RefCount

namespace BoolMap

/-- Embedding of the boolean-map variant's state: the per-loop
`runningProcs : map[int32]bool` (the set of pids mapped to true) and the
global `loggedApps : map[string]bool` (the set of lowercase names mapped to
true). -/
structure LoggerState where
  runningProcs : List Nat
  loggedApps : List String
deriving DecidableEq, Repr

/-- Fresh state of the boolean-map variant. -/
def initialLoggerState : LoggerState := ⟨[], []⟩

/-- Embedding of `shouldLogProcess`: name readable and nonempty, name not
already in `loggedApps`, executable path readable, not excluded, trackable;
on success the name is marked in `loggedApps`.  Returns the decision and
the updated `loggedApps`. -/
def shouldLogProcess (logged : List String) (p : ProcInfo) : Bool × List String :=
  match p.name with
  | none => (false, logged)
  | some name =>
    if name = "" then (false, logged)
    else
      let nameLower := strToLower name
      if nameLower ∈ logged then (false, logged)
      else match p.exe with
      | none => (false, logged)
      | some exePath =>
        if ShouldExclude exePath p then (false, logged)
        else if ¬ ShouldTrack exePath p then (false, logged)
        else (true, nameLower :: logged)

/-- Loop body of the boolean-map variant's `logNewProcesses` for one
process: pids not yet in `runningProcs` are logged iff `shouldLogProcess`
accepts them, in which case an AppEvent insert is enqueued and the pid is
recorded. -/
def processNewProc (now : Int) (acc : LoggerState × List Write) (p : ProcInfo) :
    LoggerState × List Write :=
  let s := acc.1
  if p.pid ∈ s.runningProcs then acc
  else
    let r := shouldLogProcess s.loggedApps p
    if r.1 then
      let name := p.name.getD ""
      let parentName := p.parentName.getD ""
      let exePath := p.exe.getD ""
      (⟨p.pid :: s.runningProcs, r.2⟩,
       acc.2 ++ [Write.insertEvent name p.pid parentName exePath now])
    else (⟨s.runningProcs, r.2⟩, acc.2)

/-- Embedding of `logNewProcesses` (boolean-map variant). -/
def logNewProcesses (s : LoggerState) (procs : List ProcInfo) (now : Int) :
    LoggerState × List Write :=
  procs.foldl (processNewProc now) (s, [])

/-- Loop body of the boolean-map variant's `logEndedProcesses`: a recorded
pid absent from the current snapshot gets an end-time update enqueued and
is removed from `runningProcs`; `loggedApps` is never touched here. -/
def endedLoop (now : Int) (currentPids : List Nat) :
    List Nat → List Nat → List Nat × List Write
  | [], running => (running, [])
  | pid :: rest, running =>
    if pid ∈ currentPids then endedLoop now currentPids rest running
    else
      let r := endedLoop now currentPids rest (running.erase pid)
      (r.1, Write.endUpdate now pid :: r.2)

/-- Embedding of `logEndedProcesses` (boolean-map variant). -/
def logEndedProcesses (s : LoggerState) (currentPids : List Nat) (now : Int) :
    LoggerState × List Write :=
  let r := endedLoop now currentPids s.runningProcs s.runningProcs
  (⟨r.1, s.loggedApps⟩, r.2)

/-- One ticker iteration of the boolean-map variant's monitor loop. -/
def tickStep (s : LoggerState) (procs : List ProcInfo) (now : Int) :
    LoggerState × List Write :=
  let currentPids := procs.map ProcInfo.pid
  let r1 := logEndedProcesses s currentPids now
  let r2 := logNewProcesses r1.1 procs now
  (r2.1, r1.2 ++ r2.2)

/-- One iteration of the boolean-map variant's select statement: the reset
case replaces `loggedApps` and `runningProcs` with empty maps and enqueues
nothing. -/
def stepLogger (acc : LoggerState × List Write) (e : RefCount.Event) :
    LoggerState × List Write :=
  match e with
  | RefCount.Event.tick procs now =>
    let r := tickStep acc.1 procs now
    (r.1, acc.2 ++ r.2)
  | RefCount.Event.reset => (⟨[], []⟩, acc.2)

/-- The boolean-map variant's monitor loop run on a sequence of events. -/
def runLogger (s : LoggerState) (events : List RefCount.Event) :
    LoggerState × List Write :=
  events.foldl stepLogger (s, [])

end BoolMap

/-! Specification-level definitions used to state the claims. -/

/-- Number of ledger entries (runningProcs bindings) recording the given
lowercase name. -/
def countName (m : List (Nat × String)) (n : String) : Nat :=
  (m.filter fun e => decide (e.2 = n)).length

/-- Claim C1's asserted invariant on a monitor state: for every (lowercase)
name, the stored instance count equals the number of ledger entries whose
recorded name is that name (a missing mapping reads as 0, as in Go). -/
def countsMatch (s : RefCount.LoggerState) : Prop :=
  ∀ n, alookupD s.runningAppCounts n 0 = (countName s.runningProcs n : Int)

/-- Well-formedness carried through the monitor loop: distinct ledger keys
plus the C1 invariant. -/
def WFState (s : RefCount.LoggerState) : Prop :=
  (s.runningProcs.map Prod.fst).Nodup ∧ countsMatch s

/-- Does the process evade Rule 1 on this tick (exe path unreadable, or
read but not excluded by the platform filter)? -/
def procNotExcluded (p : ProcInfo) : Bool :=
  match p.exe with
  | none => true
  | some exe => ! ShouldExclude exe p

/-- No process of the tick is excluded by Rule 1 (reset events carry no
processes). -/
def eventNoExclusion : RefCount.Event → Bool
  | RefCount.Event.tick procs _ => procs.all procNotExcluded
  | RefCount.Event.reset => true

/-- Does the write statement touch the given pid (either kind of write
carries the pid as a parameter)? -/
def touchesPid (pid : Nat) : Write → Bool
  | Write.endUpdate _ q => decide (q = pid)
  | Write.insertEvent _ q _ _ _ => decide (q = pid)

/-- Subsequence of the write queue that touches the given pid. -/
def projPid (pid : Nat) (ws : List Write) : List Write :=
  ws.filter (touchesPid pid)

/-- Open-row count of one pid after executing a pid-projected write list,
starting from `a` open rows: an insert opens one more row, an end update
closes all of them. -/
def openAux : Nat → List Write → Nat
  | a, [] => a
  | a, Write.insertEvent _ _ _ _ _ :: rest => openAux (a + 1) rest
  | _, Write.endUpdate _ _ :: rest => openAux 0 rest

/-- Every prefix of the pid-projected write list keeps at most one open
row, starting from `a` open rows. -/
def okFrom : Nat → List Write → Bool
  | _, [] => true
  | a, Write.insertEvent _ _ _ _ _ :: rest => decide (a + 1 ≤ 1) && okFrom (a + 1) rest
  | _, Write.endUpdate _ _ :: rest => okFrom 0 rest

/-- Invariant tying the enqueued writes to the ledger: per pid, every
prefix of its projected writes keeps at most one open row, and a pid
absent from the ledger has no open row after all its writes. -/
def InvC2 (s : RefCount.LoggerState) (ws : List Write) : Prop :=
  ∀ pid, okFrom 0 (projPid pid ws) = true ∧
    (alookup s.runningProcs pid = none → openAux 0 (projPid pid ws) = 0)

/-- Is the event a reset signal? -/
def isReset : RefCount.Event → Bool
  | RefCount.Event.reset => true
  | RefCount.Event.tick _ _ => false

/-- Is the write an AppEvent insert? -/
def isInsert : Write → Bool
  | Write.insertEvent _ _ _ _ _ => true
  | Write.endUpdate _ _ => false

/-- Is the write an AppEvent insert for the given pid? -/
def isInsertForPid (pid : Nat) : Write → Bool
  | Write.insertEvent _ q _ _ _ => decide (q = pid)
  | Write.endUpdate _ _ => false

/-- The executable path lies under a protected OS system directory
(the System32/SysWOW64 conditions of `ShouldExclude`). -/
def underSystemDir (path : String) : Bool :=
  strContains (strToLower path) "\\windows\\system32\\" ||
  strContains (strToLower path) "\\windows\\syswow64\\"

/-- Every snapshot entry carrying the given pid has its executable under a
protected OS system directory (or an unreadable path, which the loop skips). -/
def procPidSys (pid0 : Nat) (p : ProcInfo) : Bool :=
  if p.pid = pid0 then
    match p.exe with
    | some path => underSystemDir path
    | none => true
  else true

/-- Tick events only report the pid with a system-directory executable. -/
def eventPidSys (pid0 : Nat) : RefCount.Event → Bool
  | RefCount.Event.tick procs _ => procs.all (procPidSys pid0)
  | RefCount.Event.reset => true

/-- End-to-end composition: run the monitor loop on the events, then drain
the produced write queue through the database writer with the given
failure behaviour. -/
def systemRun (events : List RefCount.Event) (execFails : Write → Bool) :
    RefCount.LoggerState × List AppEventRow :=
  let r := RefCount.runLogger RefCount.initialLoggerState events
  (r.1, StartDatabaseWriter execFails [] r.2)

/-- Sample user application process: readable metadata, ordinary install
path, visible window, medium integrity. -/
def sampleEditor (pid : Nat) : ProcInfo :=
  { pid := pid, name := some "editor.exe", exe := some "C:\\Apps\\editor.exe",
    parentName := some "explorer.exe", hasVisibleWindow := true,
    productName := none, integrityLevel := some 8192 }

/-- Second sample user application (distinct name). -/
def sampleBrowser (pid : Nat) : ProcInfo :=
  { pid := pid, name := some "browser.exe", exe := some "C:\\Apps\\browser.exe",
    parentName := some "explorer.exe", hasVisibleWindow := true,
    productName := none, integrityLevel := some 8192 }

/-- Third sample user application (distinct name). -/
def sampleChat (pid : Nat) : ProcInfo :=
  { pid := pid, name := some "chat.exe", exe := some "C:\\Apps\\chat.exe",
    parentName := some "explorer.exe", hasVisibleWindow := true,
    productName := none, integrityLevel := some 8192 }

/-- Snapshot of the monitor's own executable: excluded by Rule 1. -/
def sampleProcGuard : ProcInfo :=
  { pid := 1, name := some "ProcGuard.exe", exe := some "C:\\Apps\\ProcGuard.exe",
    parentName := some "explorer.exe", hasVisibleWindow := true,
    productName := none, integrityLevel := some 8192 }

/-- Process under the OS system directory, with a visible window. -/
def sampleSystemProc (pid : Nat) : ProcInfo :=
  { pid := pid, name := some "svchelper.exe",
    exe := some "C:\\Windows\\System32\\svchelper.exe",
    parentName := some "services.exe", hasVisibleWindow := true,
    productName := none, integrityLevel := some 8192 }

/-! Helper lemmas about the association-list embedding of Go maps. -/

theorem alookup_aset {α β : Type} [DecidableEq α] (m : List (α × β)) (k k' : α) (v : β) :
    alookup (aset m k v) k' = if k = k' then some v else alookup m k' := by
  induction m with
  | nil =>
    simp only [aset, alookup]
  | cons e rest ih =>
    simp only [aset]
    by_cases he : e.1 = k
    · rw [if_pos he]
      simp only [alookup]
      by_cases hk : k = k'
      · rw [if_pos hk, if_pos hk]
      · have he' : ¬ e.1 = k' := by rw [he]; exact hk
        rw [if_neg hk, if_neg hk, if_neg he']
    · rw [if_neg he]
      simp only [alookup]
      by_cases he' : e.1 = k'
      · have hk : ¬ k = k' := fun h => he (he'.trans h.symm ▸ rfl)
        rw [if_pos he', if_neg hk, if_pos he']
      · rw [if_neg he', ih]
        by_cases hk : k = k'
        · rw [if_pos hk, if_pos hk]
        · rw [if_neg hk, if_neg hk, if_neg he']

theorem alookup_aerase {α β : Type} [DecidableEq α] (m : List (α × β)) (k k' : α) :
    alookup (aerase m k) k' = if k = k' then none else alookup m k' := by
  induction m with
  | nil =>
    simp only [aerase, alookup]
    by_cases hk : k = k'
    · rw [if_pos hk]
    · rw [if_neg hk]
  | cons e rest ih =>
    simp only [aerase]
    by_cases he : e.1 = k
    · rw [if_pos he, ih]
      by_cases hk : k = k'
      · rw [if_pos hk, if_pos hk]
      · have he' : ¬ e.1 = k' := by rw [he]; exact hk
        rw [if_neg hk, if_neg hk]
        simp only [alookup]
        rw [if_neg he']
    · rw [if_neg he]
      simp only [alookup]
      by_cases he' : e.1 = k'
      · have hk : ¬ k = k' := fun h => he (he'.trans h.symm ▸ rfl)
        rw [if_pos he', if_neg hk, if_pos he']
      · rw [if_neg he', ih]
        by_cases hk : k = k'
        · rw [if_pos hk, if_pos hk]
        · rw [if_neg hk, if_neg hk, if_neg he']

theorem alookup_eq_none {α β : Type} [DecidableEq α] (m : List (α × β)) (k : α) :
    alookup m k = none ↔ k ∉ m.map Prod.fst := by
  induction m with
  | nil => simp [alookup]
  | cons e rest ih =>
    simp only [List.map_cons, List.mem_cons]
    by_cases he : e.1 = k
    · simp only [alookup, if_pos he]
      constructor
      · intro h; exact absurd h (by simp)
      · intro h; exact absurd (Or.inl he.symm) h
    · simp only [alookup, if_neg he, ih]
      constructor
      · intro h hor
        rcases hor with h1 | h2
        · exact he h1.symm
        · exact h h2
      · intro h hk
        exact h (Or.inr hk)

theorem alookup_mem {α β : Type} [DecidableEq α] {m : List (α × β)} {k : α} {v : β}
    (h : alookup m k = some v) : (k, v) ∈ m := by
  induction m with
  | nil => simp [alookup] at h
  | cons e rest ih =>
    by_cases he : e.1 = k
    · simp only [alookup, if_pos he] at h
      have h2 : e.2 = v := by injection h
      have he' : e = (k, v) := Prod.ext he h2
      rw [he']
      exact List.mem_cons_self _ _
    · simp only [alookup, if_neg he] at h
      exact List.mem_cons_of_mem _ (ih h)

theorem aset_of_none {α β : Type} [DecidableEq α] {m : List (α × β)} {k : α} (v : β)
    (h : alookup m k = none) : aset m k v = m ++ [(k, v)] := by
  induction m with
  | nil => simp [aset]
  | cons e rest ih =>
    by_cases he : e.1 = k
    · simp [alookup, he] at h
    · simp [alookup, he] at h
      simp [aset, he, ih h]

theorem aerase_eq_filter {α β : Type} [DecidableEq α] (m : List (α × β)) (k : α) :
    aerase m k = m.filter (fun e => decide (e.1 ≠ k)) := by
  induction m with
  | nil => simp [aerase]
  | cons e rest ih =>
    by_cases he : e.1 = k <;> simp [aerase, he, ih, List.filter]

theorem mem_aerase {α β : Type} [DecidableEq α] (m : List (α × β)) (k : α) (e : α × β) :
    e ∈ aerase m k ↔ e ∈ m ∧ e.1 ≠ k := by
  rw [aerase_eq_filter]
  simp [List.mem_filter]

theorem keys_aset_of_isSome {α β : Type} [DecidableEq α] (m : List (α × β)) (k : α) (v : β)
    (h : (alookup m k).isSome) : (aset m k v).map Prod.fst = m.map Prod.fst := by
  induction m with
  | nil => simp [alookup] at h
  | cons e rest ih =>
    by_cases he : e.1 = k
    · simp only [aset]
      rw [if_pos he]
      simp only [List.map_cons]
      rw [he]
    · simp only [alookup, if_neg he] at h
      simp only [aset]
      rw [if_neg he]
      simp only [List.map_cons, ih h]

theorem keysNodup_aset {α β : Type} [DecidableEq α] {m : List (α × β)} (k : α) (v : β)
    (h : (m.map Prod.fst).Nodup) : ((aset m k v).map Prod.fst).Nodup := by
  cases hl : alookup m k with
  | none =>
    rw [aset_of_none v hl]
    simp only [List.map_append, List.map_cons, List.map_nil]
    rw [List.nodup_append]
    refine ⟨h, List.nodup_singleton _, ?_⟩
    intro a ha hb
    simp at hb
    exact (alookup_eq_none m k).1 hl (hb ▸ ha)
  | some w =>
    rw [keys_aset_of_isSome m k v (by rw [hl]; rfl)]
    exact h

theorem keysNodup_aerase {α β : Type} [DecidableEq α] {m : List (α × β)} (k : α)
    (h : (m.map Prod.fst).Nodup) : ((aerase m k).map Prod.fst).Nodup := by
  rw [aerase_eq_filter]
  exact h.sublist (List.Sublist.map Prod.fst (List.filter_sublist m))

theorem aerase_of_not_mem {α β : Type} [DecidableEq α] {m : List (α × β)} {k : α}
    (h : k ∉ m.map Prod.fst) : aerase m k = m := by
  induction m with
  | nil => simp [aerase]
  | cons e rest ih =>
    simp only [List.map_cons, List.mem_cons, not_or] at h
    have he : ¬ e.1 = k := fun hh => h.1 hh.symm
    simp only [aerase]
    rw [if_neg he, ih h.2]

theorem alookupD_aset {α β : Type} [DecidableEq α] (m : List (α × β)) (k k' : α) (v d : β) :
    alookupD (aset m k v) k' d = if k = k' then v else alookupD m k' d := by
  simp only [alookupD, alookup_aset]
  by_cases hk : k = k' <;> simp [hk]

theorem alookupD_aerase {α β : Type} [DecidableEq α] (m : List (α × β)) (k k' : α) (d : β) :
    alookupD (aerase m k) k' d = if k = k' then d else alookupD m k' d := by
  simp only [alookupD, alookup_aerase]
  by_cases hk : k = k' <;> simp [hk]

theorem countName_nil (n : String) : countName [] n = 0 := rfl

theorem countName_cons (e : Nat × String) (m : List (Nat × String)) (n : String) :
    countName (e :: m) n = (if e.2 = n then 1 else 0) + countName m n := by
  by_cases h : e.2 = n <;> simp [countName, List.filter_cons, h, Nat.add_comm]

theorem countName_aset_none {m : List (Nat × String)} {k : Nat} (v : String)
    (h : alookup m k = none) (n : String) :
    countName (aset m k v) n = countName m n + (if v = n then 1 else 0) := by
  rw [aset_of_none v h]
  by_cases hv : v = n <;>
    simp [countName, List.filter_append, List.filter_cons, hv]

theorem countName_aerase {m : List (Nat × String)} {k : Nat} {nm : String}
    (hnd : (m.map Prod.fst).Nodup) (hm : (k, nm) ∈ m) (n : String) :
    countName m n = countName (aerase m k) n + (if nm = n then 1 else 0) := by
  induction m with
  | nil => cases hm
  | cons e rest ih =>
    simp only [List.map_cons, List.nodup_cons] at hnd
    rcases List.mem_cons.1 hm with he | hrest
    · have hek : e.1 = k := by rw [← he]
      have hen : e.2 = nm := by rw [← he]
      simp only [aerase]
      rw [if_pos hek, aerase_of_not_mem (hek ▸ hnd.1), countName_cons, hen]
      exact Nat.add_comm _ _
    · have hkm : k ∈ rest.map Prod.fst := List.mem_map_of_mem Prod.fst hrest
      have hek : ¬ e.1 = k := fun hh => hnd.1 (hh ▸ hkm)
      simp only [aerase]
      rw [if_neg hek, countName_cons, countName_cons, ih hnd.2 hrest,
        Nat.add_assoc]

theorem WFState_empty : WFState ⟨[], []⟩ := by
  refine ⟨List.nodup_nil, ?_⟩
  intro n
  simp [alookupD, alookup, countName]

theorem removeEntry_WF {s : RefCount.LoggerState} {pid : Nat} {nm : String}
    (hmem : (pid, nm) ∈ s.runningProcs) (hwf : WFState s) :
    WFState (RefCount.removeEntry s pid nm) := by
  obtain ⟨hnd, hcm⟩ := hwf
  have hcount := countName_aerase hnd hmem
  constructor
  · exact keysNodup_aerase pid hnd
  · intro n
    simp only [RefCount.removeEntry]
    by_cases hn : nm = n
    · subst hn
      have h1 : countName s.runningProcs nm =
          countName (aerase s.runningProcs pid) nm + 1 := by
        have := hcount nm
        simpa using this
      have e1 := hcm nm
      by_cases hc : alookupD s.runningAppCounts nm 0 - 1 ≤ 0
      · rw [if_pos hc, alookupD_aerase, if_pos rfl]
        omega
      · rw [if_neg hc, alookupD_aset, if_pos rfl]
        omega
    · have h2 : countName (aerase s.runningProcs pid) n =
          countName s.runningProcs n := by
        have := hcount n
        rw [if_neg hn] at this
        omega
      by_cases hc : alookupD s.runningAppCounts nm 0 - 1 ≤ 0
      · rw [if_pos hc, alookupD_aerase, if_neg hn, hcm n, h2]
      · rw [if_neg hc, alookupD_aset, if_neg hn, hcm n, h2]

theorem endedLoop_WF (now : Int) (cur : List Nat) :
    ∀ (entries : List (Nat × String)) (s : RefCount.LoggerState),
      (entries.map Prod.fst).Nodup →
      (∀ e ∈ entries, e ∈ s.runningProcs) →
      WFState s → WFState (RefCount.endedLoop now cur entries s).1 := by
  intro entries
  induction entries with
  | nil =>
    intro s _ _ hwf
    exact hwf
  | cons e rest ih =>
    intro s hnd hmem hwf
    obtain ⟨pid, nm⟩ := e
    simp only [List.map_cons, List.nodup_cons] at hnd
    by_cases hc : pid ∈ cur
    · have heq : RefCount.endedLoop now cur ((pid, nm) :: rest) s =
          RefCount.endedLoop now cur rest s := by
        simp only [RefCount.endedLoop]
        rw [if_pos hc]
      rw [heq]
      exact ih s hnd.2 (fun e' he' => hmem e' (List.mem_cons_of_mem _ he')) hwf
    · have heq : (RefCount.endedLoop now cur ((pid, nm) :: rest) s).1 =
          (RefCount.endedLoop now cur rest (RefCount.removeEntry s pid nm)).1 := by
        simp only [RefCount.endedLoop]
        rw [if_neg hc]
      rw [heq]
      refine ih _ hnd.2 ?_ (removeEntry_WF (hmem _ (List.mem_cons_self _ _)) hwf)
      intro e' he'
      have hne : e'.1 ≠ pid := by
        intro hh
        exact hnd.1 (hh ▸ List.mem_map_of_mem Prod.fst he')
      have : e' ∈ aerase s.runningProcs pid :=
        (mem_aerase _ _ _).2 ⟨hmem e' (List.mem_cons_of_mem _ he'), hne⟩
      exact this

theorem logEndedProcesses_WF (s : RefCount.LoggerState) (cur : List Nat) (now : Int)
    (hwf : WFState s) : WFState (RefCount.logEndedProcesses s cur now).1 :=
  endedLoop_WF now cur s.runningProcs s hwf.1 (fun _ h => h) hwf

theorem WF_addInstance {s : RefCount.LoggerState} {pid : Nat} (nm : String)
    (hnone : alookup s.runningProcs pid = none) (hwf : WFState s) :
    WFState ⟨aset s.runningProcs pid nm,
      aset s.runningAppCounts nm (alookupD s.runningAppCounts nm 0 + 1)⟩ := by
  obtain ⟨hnd, hcm⟩ := hwf
  refine ⟨keysNodup_aset _ _ hnd, ?_⟩
  intro n
  simp only
  rw [alookupD_aset, countName_aset_none nm hnone n]
  by_cases hn : nm = n
  · subst hn
    rw [if_pos rfl, if_pos rfl, hcm nm]
    push_cast
    ring
  · rw [if_neg hn, if_neg hn, hcm n]
    simp

theorem procNotExcluded_spec {p : ProcInfo} (h : procNotExcluded p = true) :
    ∀ exe, p.exe = some exe → ShouldExclude exe p = false := by
  intro exe hexe
  unfold procNotExcluded at h
  rw [hexe] at h
  simpa using h

theorem processNewProc_WF (now : Int) (s : RefCount.LoggerState) (ws : List Write)
    (p : ProcInfo)
    (hnx : ∀ exe, p.exe = some exe → ShouldExclude exe p = false)
    (hwf : WFState s) : WFState (RefCount.processNewProc now (s, ws) p).1 := by
  simp only [RefCount.processNewProc]
  split
  · exact hwf
  next hio =>
    have hnone : alookup s.runningProcs p.pid = none := by
      cases h : alookup s.runningProcs p.pid with
      | none => rfl
      | some v => rw [h] at hio; simp at hio
    split
    · exact hwf
    next name hname =>
      split
      · exact hwf
      next hne =>
        split
        · exact hwf
        next exePath hexe =>
          split
          next hexc =>
            rw [hnx exePath hexe] at hexc
            cases hexc
          next hexc =>
            split
            next hpos => exact WF_addInstance _ hnone hwf
            next hnpos =>
              split
              · exact hwf
              · exact WF_addInstance _ hnone hwf

theorem logNewProcesses_loop_WF (now : Int) :
    ∀ (procs : List ProcInfo) (acc : RefCount.LoggerState × List Write),
      (∀ p ∈ procs, procNotExcluded p = true) →
      WFState acc.1 →
      WFState (procs.foldl (RefCount.processNewProc now) acc).1 := by
  intro procs
  induction procs with
  | nil =>
    intro acc _ hwf
    exact hwf
  | cons p rest ih =>
    intro acc hnx hwf
    simp only [List.foldl_cons]
    refine ih _ (fun q hq => hnx q (List.mem_cons_of_mem _ hq)) ?_
    obtain ⟨s, ws⟩ := acc
    exact processNewProc_WF now s ws p
      (procNotExcluded_spec (hnx p (List.mem_cons_self _ _))) hwf

theorem tickStep_WF (s : RefCount.LoggerState) (procs : List ProcInfo) (now : Int)
    (hnx : ∀ p ∈ procs, procNotExcluded p = true)
    (hwf : WFState s) : WFState (RefCount.tickStep s procs now).1 := by
  have h1 : WFState (RefCount.logEndedProcesses s (procs.map ProcInfo.pid) now).1 :=
    logEndedProcesses_WF s _ now hwf
  exact logNewProcesses_loop_WF now procs
    ((RefCount.logEndedProcesses s (procs.map ProcInfo.pid) now).1, []) hnx h1

theorem runLoggerAux_WF :
    ∀ (events : List RefCount.Event) (s : RefCount.LoggerState) (ws : List Write),
      (∀ e ∈ events, eventNoExclusion e = true) →
      WFState s → WFState (events.foldl RefCount.stepLogger (s, ws)).1 := by
  intro events
  induction events with
  | nil =>
    intro s ws _ hwf
    exact hwf
  | cons e rest ih =>
    intro s ws hnx hwf
    simp only [List.foldl_cons]
    cases e with
    | tick procs now =>
      have hp : ∀ p ∈ procs, procNotExcluded p = true := by
        have := hnx _ (List.mem_cons_self _ _)
        simpa [eventNoExclusion, List.all_eq_true] using this
      exact ih _ _ (fun e' he' => hnx e' (List.mem_cons_of_mem _ he'))
        (tickStep_WF s procs now hp hwf)
    | reset =>
      exact ih _ _ (fun e' he' => hnx e' (List.mem_cons_of_mem _ he')) WFState_empty

theorem initRow_WF (pidExists : Nat → Bool) (now : Int) :
    ∀ (rows : List (Nat × String)) (acc : RefCount.LoggerState × List Write),
      (rows.map Prod.fst).Nodup →
      (∀ r ∈ rows, alookup acc.1.runningProcs r.1 = none) →
      WFState acc.1 →
      WFState ((rows.foldl (RefCount.initRow pidExists now) acc)).1 := by
  intro rows
  induction rows with
  | nil =>
    intro acc _ _ hwf
    exact hwf
  | cons row rest ih =>
    intro acc hnd hfresh hwf
    simp only [List.map_cons, List.nodup_cons] at hnd
    simp only [List.foldl_cons]
    by_cases hlive : pidExists row.1 = true
    · have heq : RefCount.initRow pidExists now acc row =
          (⟨aset acc.1.runningProcs row.1 (strToLower row.2),
            aset acc.1.runningAppCounts (strToLower row.2)
              (alookupD acc.1.runningAppCounts (strToLower row.2) 0 + 1)⟩, acc.2) := by
        simp only [RefCount.initRow]
        rw [if_pos hlive]
      rw [heq]
      refine ih _ hnd.2 ?_
        (WF_addInstance _ (hfresh row (List.mem_cons_self _ _)) hwf)
      intro r hr
      simp only
      rw [alookup_aset]
      have hne : ¬ row.1 = r.1 := by
        intro hh
        exact hnd.1 (hh ▸ List.mem_map_of_mem Prod.fst hr)
      rw [if_neg hne]
      exact hfresh r (List.mem_cons_of_mem _ hr)
    · have heq : RefCount.initRow pidExists now acc row =
          (acc.1, acc.2 ++ [Write.endUpdate now row.1]) := by
        simp only [RefCount.initRow]
        rw [if_neg hlive]
      rw [heq]
      exact ih _ hnd.2 (fun r hr => hfresh r (List.mem_cons_of_mem _ hr)) hwf

theorem initializeRunningProcs_WF (rows : List (Nat × String))
    (pidExists : Nat → Bool) (now : Int) (hnd : (rows.map Prod.fst).Nodup) :
    WFState (RefCount.initializeRunningProcs rows pidExists now).1 :=
  initRow_WF pidExists now rows _ hnd
    (fun _ _ => rfl) WFState_empty

theorem endedLoop_cons_mem (now : Int) (cur : List Nat) (pid : Nat) (nm : String)
    (rest : List (Nat × String)) (s : RefCount.LoggerState) (hc : pid ∈ cur) :
    RefCount.endedLoop now cur ((pid, nm) :: rest) s =
      RefCount.endedLoop now cur rest s := by
  simp only [RefCount.endedLoop]
  rw [if_pos hc]

theorem endedLoop_cons_notMem (now : Int) (cur : List Nat) (pid : Nat) (nm : String)
    (rest : List (Nat × String)) (s : RefCount.LoggerState) (hc : pid ∉ cur) :
    RefCount.endedLoop now cur ((pid, nm) :: rest) s =
      ((RefCount.endedLoop now cur rest (RefCount.removeEntry s pid nm)).1,
       Write.endUpdate now pid ::
         (RefCount.endedLoop now cur rest (RefCount.removeEntry s pid nm)).2) := by
  simp only [RefCount.endedLoop]
  rw [if_neg hc]

theorem endedLoop_endUpdate_mem (now : Int) (cur : List Nat) :
    ∀ (entries : List (Nat × String)) (s : RefCount.LoggerState) (pid : Nat)
      (nm : String), (pid, nm) ∈ entries → pid ∉ cur →
      Write.endUpdate now pid ∈ (RefCount.endedLoop now cur entries s).2 := by
  intro entries
  induction entries with
  | nil =>
    intro s pid nm h
    cases h
  | cons e rest ih =>
    intro s pid nm hm hnc
    obtain ⟨epid, enm⟩ := e
    rcases List.mem_cons.1 hm with he | hrest
    · have hepid : epid = pid := by
        have := congrArg Prod.fst he
        exact this.symm
      subst hepid
      rw [endedLoop_cons_notMem now cur epid enm rest s hnc]
      exact List.mem_cons_self _ _
    · by_cases hc : epid ∈ cur
      · rw [endedLoop_cons_mem now cur epid enm rest s hc]
        exact ih s pid nm hrest hnc
      · rw [endedLoop_cons_notMem now cur epid enm rest s hc]
        exact List.mem_cons_of_mem _ (ih _ pid nm hrest hnc)

theorem endedLoop_writes_endUpdate (now : Int) (cur : List Nat) :
    ∀ (entries : List (Nat × String)) (s : RefCount.LoggerState),
      ∀ w ∈ (RefCount.endedLoop now cur entries s).2,
        ∃ q, w = Write.endUpdate now q := by
  intro entries
  induction entries with
  | nil =>
    intro s w hw
    cases hw
  | cons e rest ih =>
    intro s w hw
    obtain ⟨epid, enm⟩ := e
    by_cases hc : epid ∈ cur
    · rw [endedLoop_cons_mem now cur epid enm rest s hc] at hw
      exact ih s w hw
    · rw [endedLoop_cons_notMem now cur epid enm rest s hc] at hw
      rcases List.mem_cons.1 hw with he | hrest'
      · exact ⟨epid, he⟩
      · exact ih _ w hrest'

/-- Claim C4: within one tick, every end-time update for a disappeared
process is enqueued before any AppEvent insert of that tick; in
particular, if tracked process P disappears while some process produces
an insert in the same tick, P's end-write precedes that insert in the
queue. -/
theorem c4_theorem (s : RefCount.LoggerState) (procs : List ProcInfo) (now : Int)
    (pid : Nat) (i : Nat) (w : Write)
    (hin : (alookup s.runningProcs pid).isSome = true)
    (hgone : pid ∉ procs.map ProcInfo.pid)
    (hw : (RefCount.tickStep s procs now).2.get? i = some w)
    (hist : isInsert w = true) :
    ∃ j, j < i ∧
      (RefCount.tickStep s procs now).2.get? j =
        some (Write.endUpdate now pid) := by
  have htick : (RefCount.tickStep s procs now).2 =
      (RefCount.logEndedProcesses s (procs.map ProcInfo.pid) now).2 ++
      (RefCount.logNewProcesses
        (RefCount.logEndedProcesses s (procs.map ProcInfo.pid) now).1 procs now).2 :=
    rfl
  rw [htick] at hw ⊢
  obtain ⟨nm, hnm⟩ := Option.isSome_iff_exists.1 hin
  have hmem : Write.endUpdate now pid ∈
      (RefCount.logEndedProcesses s (procs.map ProcInfo.pid) now).2 :=
    endedLoop_endUpdate_mem now _ s.runningProcs s pid nm (alookup_mem hnm) hgone
  obtain ⟨j, hj⟩ := List.mem_iff_get?.1 hmem
  have hjlt : j < (RefCount.logEndedProcesses s (procs.map ProcInfo.pid) now).2.length :=
    (List.get?_eq_some.1 hj).1
  have hige : (RefCount.logEndedProcesses s (procs.map ProcInfo.pid) now).2.length ≤ i := by
    by_contra hlt
    push_neg at hlt
    rw [List.get?_append hlt] at hw
    obtain ⟨q, hq⟩ := endedLoop_writes_endUpdate now _ s.runningProcs s w
      (List.get?_mem hw)
    rw [hq] at hist
    cases hist
  exact ⟨j, lt_of_lt_of_le hjlt hige, by rw [List.get?_append hjlt]; exact hj⟩

/-- Claim C4, witness: a tracked process (pid 1) disappears while a new
same-named process (pid 2) appears; the end-write for pid 1 precedes the
insert in the tick's queue. -/
theorem c4_witness :
    ∃ j, j < 1 ∧
      (RefCount.tickStep ⟨[(1, "editor.exe")], [("editor.exe", 1)]⟩
        [sampleEditor 2] 5).2.get? j = some (Write.endUpdate 5 1) :=
  c4_theorem ⟨[(1, "editor.exe")], [("editor.exe", 1)]⟩ [sampleEditor 2] 5 1 1
    (Write.insertEvent "editor.exe" 2 "explorer.exe" "C:\\Apps\\editor.exe" 5)
    (by decide) (by decide) (by decide) (by decide)

/-- Claim C5: a new process whose lowercase name already has a positive
instance count is folded into the ledger — pid recorded, count
incremented — with no AppEvent insert enqueued; consequently two
simultaneous same-named processes first seen in one tick yield exactly one
insert and an instance count of 2. -/
theorem c5_theorem :
    (∀ (s : RefCount.LoggerState) (ws : List Write) (now : Int) (p : ProcInfo)
       (name exePath : String),
      alookup s.runningProcs p.pid = none →
      p.name = some name → ¬ name = "" →
      p.exe = some exePath →
      ShouldExclude exePath p = false →
      0 < alookupD s.runningAppCounts (strToLower name) 0 →
      RefCount.processNewProc now (s, ws) p =
        (⟨aset s.runningProcs p.pid (strToLower name),
          aset s.runningAppCounts (strToLower name)
            (alookupD s.runningAppCounts (strToLower name) 0 + 1)⟩, ws))
    ∧ (RefCount.tickStep RefCount.initialLoggerState
         [sampleEditor 1, sampleEditor 2] 0).2 =
        [Write.insertEvent "editor.exe" 1 "explorer.exe" "C:\\Apps\\editor.exe" 0]
    ∧ alookupD (RefCount.tickStep RefCount.initialLoggerState
         [sampleEditor 1, sampleEditor 2] 0).1.runningAppCounts "editor.exe" 0 = 2 := by
  refine ⟨?_, by decide, by decide⟩
  intro s ws now p name exePath hnone hname hne hexe hexc hpos
  simp [RefCount.processNewProc, hnone, hname, hne, hexe, hexc, hpos]

/-- Claim C5, witness: the dedup path evaluated at a concrete state that
already counts one "editor.exe" instance. -/
theorem c5_witness :
    RefCount.processNewProc 3 (⟨[(9, "editor.exe")], [("editor.exe", 1)]⟩, [])
        (sampleEditor 4) =
      (⟨aset [(9, "editor.exe")] 4 (strToLower "editor.exe"),
        aset [("editor.exe", 1)] (strToLower "editor.exe")
          (alookupD [("editor.exe", 1)] (strToLower "editor.exe") 0 + 1)⟩, []) :=
  c5_theorem.1 ⟨[(9, "editor.exe")], [("editor.exe", 1)]⟩ [] 3 (sampleEditor 4)
    "editor.exe" "C:\\Apps\\editor.exe" (by decide) rfl (by decide) rfl
    (by decide) (by decide)

/-- Claim C6: handling a reset replaces only the ledger and instance-count
maps with empty ones and enqueues nothing — the write queue, and hence the
store and its open rows, are untouched — and on the next tick every
qualifying running process is treated as new: after a reset, a tick over
three qualifying already-tracked processes enqueues three fresh inserts. -/
theorem c6_theorem :
    (∀ (acc : RefCount.LoggerState × List Write),
      RefCount.stepLogger acc RefCount.Event.reset =
        (RefCount.initialLoggerState, acc.2))
    ∧ (∀ (db : List AppEventRow) (pid : Nat),
        openRowCount (applyWrites db []) pid = openRowCount db pid)
    ∧ (RefCount.runLogger
        (RefCount.tickStep RefCount.initialLoggerState
          [sampleEditor 1, sampleBrowser 2, sampleChat 3] 0).1
        [RefCount.Event.reset,
         RefCount.Event.tick [sampleEditor 1, sampleBrowser 2, sampleChat 3] 9]).2 =
      [Write.insertEvent "editor.exe" 1 "explorer.exe" "C:\\Apps\\editor.exe" 9,
       Write.insertEvent "browser.exe" 2 "explorer.exe" "C:\\Apps\\browser.exe" 9,
       Write.insertEvent "chat.exe" 3 "explorer.exe" "C:\\Apps\\chat.exe" 9] :=
  ⟨fun _ => rfl, fun _ _ => rfl, by decide⟩

theorem underSystemDir_excludes (path : String) (p : ProcInfo)
    (h : underSystemDir path = true) : ShouldExclude path p = true := by
  unfold underSystemDir at h
  by_cases h1 : strContains (strToLower path) "procguard.exe"
  · simp [ShouldExclude, h1]
  · by_cases h2 : strEndsWith (strToLower path) "conhost.exe"
    · simp [ShouldExclude, h1, h2]
    · rw [Bool.or_eq_true] at h
      rcases h with h3 | h4
      · simp [ShouldExclude, h1, h2, h3]
      · simp [ShouldExclude, h1, h2, h4]

theorem processNewProc_pidSys (now : Int) (pid0 : Nat)
    (acc : RefCount.LoggerState × List Write) (p : ProcInfo)
    (hp : procPidSys pid0 p = true)
    (hacc : acc.2.all (fun w => ! isInsertForPid pid0 w) = true) :
    (RefCount.processNewProc now acc p).2.all
      (fun w => ! isInsertForPid pid0 w) = true := by
  obtain ⟨s, ws⟩ := acc
  simp only [RefCount.processNewProc]
  split
  · exact hacc
  next hio =>
    split
    · exact hacc
    next name hname =>
      split
      · exact hacc
      next hne =>
        split
        · exact hacc
        next exePath hexe =>
          split
          next hexc => exact hacc
          next hexc =>
            have hpid : ¬ p.pid = pid0 := by
              intro hh
              unfold procPidSys at hp
              rw [if_pos hh, hexe] at hp
              exact hexc (underSystemDir_excludes exePath p hp)
            split
            next hpos => exact hacc
            next hnpos =>
              split
              · exact hacc
              · simp only [List.all_append, hacc, Bool.true_and, List.all_cons,
                  List.all_nil, Bool.and_true]
                simp [isInsertForPid, hpid]

theorem newLoop_pidSys (now : Int) (pid0 : Nat) :
    ∀ (procs : List ProcInfo) (acc : RefCount.LoggerState × List Write),
      (∀ p ∈ procs, procPidSys pid0 p = true) →
      acc.2.all (fun w => ! isInsertForPid pid0 w) = true →
      ((procs.foldl (RefCount.processNewProc now) acc).2).all
        (fun w => ! isInsertForPid pid0 w) = true := by
  intro procs
  induction procs with
  | nil =>
    intro acc _ hacc
    exact hacc
  | cons p rest ih =>
    intro acc hp hacc
    simp only [List.foldl_cons]
    exact ih _ (fun q hq => hp q (List.mem_cons_of_mem _ hq))
      (processNewProc_pidSys now pid0 acc p (hp p (List.mem_cons_self _ _)) hacc)

theorem endWrites_pidSys (now : Int) (cur : List Nat) (pid0 : Nat)
    (entries : List (Nat × String)) (s : RefCount.LoggerState) :
    ((RefCount.endedLoop now cur entries s).2).all
      (fun w => ! isInsertForPid pid0 w) = true := by
  rw [List.all_eq_true]
  intro w hw
  obtain ⟨q, hq⟩ := endedLoop_writes_endUpdate now cur entries s w hw
  rw [hq]
  rfl

theorem runAux_pidSys (pid0 : Nat) :
    ∀ (events : List RefCount.Event) (s : RefCount.LoggerState) (ws : List Write),
      (∀ e ∈ events, eventPidSys pid0 e = true) →
      ws.all (fun w => ! isInsertForPid pid0 w) = true →
      ((events.foldl RefCount.stepLogger (s, ws)).2).all
        (fun w => ! isInsertForPid pid0 w) = true := by
  intro events
  induction events with
  | nil =>
    intro s ws _ hws
    exact hws
  | cons e rest ih =>
    intro s ws hev hws
    simp only [List.foldl_cons]
    cases e with
    | tick procs now =>
      refine ih _ _ (fun e' he' => hev e' (List.mem_cons_of_mem _ he')) ?_
      have hp : ∀ p ∈ procs, procPidSys pid0 p = true := by
        have := hev _ (List.mem_cons_self _ _)
        simpa [eventPidSys, List.all_eq_true] using this
      show ((ws ++ (RefCount.tickStep s procs now).2)).all
        (fun w => ! isInsertForPid pid0 w) = true
      have htick : (RefCount.tickStep s procs now).2 =
          (RefCount.logEndedProcesses s (procs.map ProcInfo.pid) now).2 ++
          (RefCount.logNewProcesses
            (RefCount.logEndedProcesses s (procs.map ProcInfo.pid) now).1
            procs now).2 := rfl
      rw [htick, List.all_append, List.all_append, Bool.and_eq_true,
        Bool.and_eq_true]
      exact ⟨hws, endWrites_pidSys now _ pid0 s.runningProcs s,
        newLoop_pidSys now pid0 procs _ hp (by rfl)⟩
    | reset =>
      exact ih _ _ (fun e' he' => hev e' (List.mem_cons_of_mem _ he')) hws

/-- Claim C7: for a process identifier that the OS only ever reports with
an executable under a protected system directory (System32/SysWOW64), no
AppEvent insert for that identifier is ever enqueued, over any sequence of
ticks and resets, however many ticks elapse and regardless of window
visibility. -/
theorem c7_theorem (events : List RefCount.Event) (pid0 : Nat)
    (hsys : ∀ e ∈ events, eventPidSys pid0 e = true) :
    ((RefCount.runLogger RefCount.initialLoggerState events).2).all
      (fun w => ! isInsertForPid pid0 w) = true :=
  runAux_pidSys pid0 events RefCount.initialLoggerState [] hsys rfl

/-- Claim C7, witness: two ticks observing a visible-window System32
process produce no insert for its pid. -/
theorem c7_witness :
    ((RefCount.runLogger RefCount.initialLoggerState
      [RefCount.Event.tick [sampleSystemProc 7] 0,
       RefCount.Event.tick [sampleSystemProc 7, sampleEditor 2] 2]).2).all
      (fun w => ! isInsertForPid 7 w) = true :=
  c7_theorem
    [RefCount.Event.tick [sampleSystemProc 7] 0,
     RefCount.Event.tick [sampleSystemProc 7, sampleEditor 2] 2] 7
    (by decide)

theorem initLoop_spec (pidExists : Nat → Bool) (now : Int) :
    ∀ (rows : List (Nat × String)) (acc : RefCount.LoggerState × List Write),
      (rows.map Prod.fst).Nodup →
      (∀ r ∈ rows, alookup acc.1.runningProcs r.1 = none) →
      ((rows.foldl (RefCount.initRow pidExists now) acc).1.runningProcs =
          acc.1.runningProcs ++
            ((rows.filter fun row => pidExists row.1).map
              fun row => (row.1, strToLower row.2)))
      ∧ ((rows.foldl (RefCount.initRow pidExists now) acc).2 =
          acc.2 ++ ((rows.filter fun row => ! pidExists row.1).map
              fun row => Write.endUpdate now row.1))
      ∧ ∀ n, alookupD
            (rows.foldl (RefCount.initRow pidExists now) acc).1.runningAppCounts n 0 =
          alookupD acc.1.runningAppCounts n 0 +
            (((rows.filter fun row =>
                pidExists row.1 && decide (strToLower row.2 = n)).length : Int)) := by
  intro rows
  induction rows with
  | nil =>
    intro acc _ _
    exact ⟨by simp, by simp, fun n => by simp⟩
  | cons row rest ih =>
    intro acc hnd hfresh
    simp only [List.map_cons, List.nodup_cons] at hnd
    simp only [List.foldl_cons]
    by_cases hlive : pidExists row.1 = true
    · have heq : RefCount.initRow pidExists now acc row =
          (⟨aset acc.1.runningProcs row.1 (strToLower row.2),
            aset acc.1.runningAppCounts (strToLower row.2)
              (alookupD acc.1.runningAppCounts (strToLower row.2) 0 + 1)⟩, acc.2) := by
        simp only [RefCount.initRow]
        rw [if_pos hlive]
      rw [heq]
      have hfresh' : ∀ r ∈ rest,
          alookup (aset acc.1.runningProcs row.1 (strToLower row.2)) r.1 = none := by
        intro r hr
        rw [alookup_aset]
        have hne : ¬ row.1 = r.1 :=
          fun hh => hnd.1 (hh ▸ List.mem_map_of_mem Prod.fst hr)
        rw [if_neg hne]
        exact hfresh r (List.mem_cons_of_mem _ hr)
      obtain ⟨ihA, ihB, ihC⟩ :=
        ih (⟨aset acc.1.runningProcs row.1 (strToLower row.2),
            aset acc.1.runningAppCounts (strToLower row.2)
              (alookupD acc.1.runningAppCounts (strToLower row.2) 0 + 1)⟩, acc.2)
          hnd.2 hfresh'
      refine ⟨?_, ?_, ?_⟩
      · rw [ihA]
        simp only
        rw [aset_of_none _ (hfresh row (List.mem_cons_self _ _)),
          List.filter_cons, if_pos (by simp [hlive]), List.map_cons,
          List.append_assoc]
        rfl
      · rw [ihB]
        simp only [List.filter_cons]
        rw [if_neg (by simp [hlive])]
      · intro n
        rw [ihC n]
        simp only
        rw [alookupD_aset, List.filter_cons]
        by_cases hn : strToLower row.2 = n
        · rw [if_pos hn, if_pos (by simp [hlive, hn]), List.length_cons, hn]
          push_cast
          ring
        · rw [if_neg hn, if_neg (by simp [hn])]
    · have hlive' : pidExists row.1 = false := by
        cases h : pidExists row.1
        · rfl
        · exact absurd h hlive
      have heq : RefCount.initRow pidExists now acc row =
          (acc.1, acc.2 ++ [Write.endUpdate now row.1]) := by
        simp only [RefCount.initRow]
        rw [if_neg hlive]
      rw [heq]
      obtain ⟨ihA, ihB, ihC⟩ :=
        ih (acc.1, acc.2 ++ [Write.endUpdate now row.1]) hnd.2
          (fun r hr => hfresh r (List.mem_cons_of_mem _ hr))
      refine ⟨?_, ?_, ?_⟩
      · rw [ihA]
        rw [List.filter_cons, if_neg (by simp [hlive'])]
      · rw [ihB]
        rw [List.filter_cons, if_pos (by simp [hlive']), List.map_cons,
          List.append_assoc]
        rfl
      · intro n
        rw [ihC n]
        rw [List.filter_cons, if_neg (by simp [hlive'])]

/-- Claim C9: the startup seeding reads exactly the open AppEvent rows:
live pids become ledger entries under their lowercase names (and are
tallied in the instance counts), dead pids get an end-time update with the
current timestamp enqueued and no ledger entry. -/
theorem c9_theorem (rows : List (Nat × String)) (pidExists : Nat → Bool)
    (now : Int) (hnd : (rows.map Prod.fst).Nodup) :
    ((RefCount.initializeRunningProcs rows pidExists now).1.runningProcs =
        ((rows.filter fun row => pidExists row.1).map
          fun row => (row.1, strToLower row.2)))
    ∧ ((RefCount.initializeRunningProcs rows pidExists now).2 =
        ((rows.filter fun row => ! pidExists row.1).map
          fun row => Write.endUpdate now row.1))
    ∧ ∀ n, alookupD
          (RefCount.initializeRunningProcs rows pidExists now).1.runningAppCounts n 0 =
        (((rows.filter fun row =>
            pidExists row.1 && decide (strToLower row.2 = n)).length : Int)) := by
  obtain ⟨hA, hB, hC⟩ :=
    initLoop_spec pidExists now rows ⟨⟨[], []⟩, []⟩ hnd (fun _ _ => rfl)
  refine ⟨?_, ?_, ?_⟩
  · simpa using hA
  · simpa using hB
  · intro n
    have h := hC n
    rw [show alookupD ([] : List (String × Int)) n 0 = 0 from rfl, zero_add] at h
    exact h

/-- Claim C9, witness: seeding from two open rows, one live (pid 1) and
one stale (pid 2). -/
theorem c9_witness :
    ((RefCount.initializeRunningProcs [(1, "Editor.exe"), (2, "gone.exe")]
        (fun pid => decide (pid = 1)) 7).1.runningProcs =
        (([(1, "Editor.exe"), (2, "gone.exe")].filter
            fun row => (fun pid => decide (pid = 1)) row.1).map
          fun row => (row.1, strToLower row.2)))
    ∧ ((RefCount.initializeRunningProcs [(1, "Editor.exe"), (2, "gone.exe")]
        (fun pid => decide (pid = 1)) 7).2 =
        (([(1, "Editor.exe"), (2, "gone.exe")].filter
            fun row => ! (fun pid => decide (pid = 1)) row.1).map
          fun row => Write.endUpdate 7 row.1))
    ∧ alookupD (RefCount.initializeRunningProcs [(1, "Editor.exe"), (2, "gone.exe")]
          (fun pid => decide (pid = 1)) 7).1.runningAppCounts "editor.exe" 0 =
        ((([(1, "Editor.exe"), (2, "gone.exe")].filter
            fun row => (fun pid => decide (pid = 1)) row.1 &&
              decide (strToLower row.2 = "editor.exe")).length : Int)) := by
  obtain ⟨hA, hB, hC⟩ := c9_theorem [(1, "Editor.exe"), (2, "gone.exe")]
    (fun pid => decide (pid = 1)) 7 (by decide)
  exact ⟨hA, hB, hC "editor.exe"⟩

theorem openRowCount_append (db db' : List AppEventRow) (pid : Nat) :
    openRowCount (db ++ db') pid = openRowCount db pid + openRowCount db' pid := by
  simp [openRowCount, List.filter_append]

theorem openRowCount_cons (r : AppEventRow) (db : List AppEventRow) (pid : Nat) :
    openRowCount (r :: db) pid =
      (if r.pid = pid ∧ r.endTime = none then 1 else 0) + openRowCount db pid := by
  by_cases h : r.pid = pid ∧ r.endTime = none <;>
    simp [openRowCount, List.filter_cons, h, Nat.add_comm]

theorem openRowCount_applyWrite_insert (db : List AppEventRow) (n : String)
    (q : Nat) (par exe : String) (t : Int) (pid : Nat) :
    openRowCount (applyWrite db (Write.insertEvent n q par exe t)) pid =
      openRowCount db pid + (if q = pid then 1 else 0) := by
  simp only [applyWrite]
  rw [openRowCount_append]
  congr 1
  by_cases h : q = pid <;> simp [openRowCount, List.filter_cons, h]

theorem openRowCount_applyWrite_end_self (db : List AppEventRow) (t : Int)
    (pid : Nat) :
    openRowCount (applyWrite db (Write.endUpdate t pid)) pid = 0 := by
  simp only [applyWrite]
  induction db with
  | nil => rfl
  | cons r rest ih =>
    rw [List.map_cons, openRowCount_cons]
    by_cases h : r.pid = pid ∧ r.endTime = none
    · rw [if_pos h]
      simpa using ih
    · rw [if_neg h, if_neg h]
      simpa using ih

theorem openRowCount_applyWrite_end_ne (db : List AppEventRow) (t : Int)
    (q pid : Nat) (hne : q ≠ pid) :
    openRowCount (applyWrite db (Write.endUpdate t q)) pid = openRowCount db pid := by
  simp only [applyWrite]
  induction db with
  | nil => rfl
  | cons r rest ih =>
    rw [List.map_cons, openRowCount_cons, openRowCount_cons]
    by_cases h : r.pid = q ∧ r.endTime = none
    · rw [if_pos h]
      have h1 : ¬ (({ r with endTime := some t } : AppEventRow).pid = pid ∧
          ({ r with endTime := some t } : AppEventRow).endTime = none) := by simp
      have h2 : ¬ (r.pid = pid ∧ r.endTime = none) :=
        fun hc => hne (h.1.symm.trans hc.1)
      rw [if_neg h1, if_neg h2, ih]
    · rw [if_neg h, ih]

theorem openRowCount_applyWrites (pid : Nat) :
    ∀ (ws : List Write) (db : List AppEventRow),
      openRowCount (applyWrites db ws) pid =
        openAux (openRowCount db pid) (projPid pid ws) := by
  intro ws
  induction ws with
  | nil =>
    intro db
    rfl
  | cons w rest ih =>
    intro db
    have hstep : applyWrites db (w :: rest) = applyWrites (applyWrite db w) rest := rfl
    rw [hstep]
    cases w with
    | endUpdate t q =>
      by_cases hq : q = pid
      · rw [hq]
        have hproj : projPid pid (Write.endUpdate t pid :: rest) =
            Write.endUpdate t pid :: projPid pid rest := by
          simp [projPid, List.filter_cons, touchesPid]
        rw [ih, openRowCount_applyWrite_end_self, hproj]
        rfl
      · have hproj : projPid pid (Write.endUpdate t q :: rest) = projPid pid rest := by
          simp [projPid, List.filter_cons, touchesPid, hq]
        rw [ih, openRowCount_applyWrite_end_ne db t q pid hq, hproj]
    | insertEvent n q par exe t =>
      by_cases hq : q = pid
      · rw [hq]
        have hproj : projPid pid (Write.insertEvent n pid par exe t :: rest) =
            Write.insertEvent n pid par exe t :: projPid pid rest := by
          simp [projPid, List.filter_cons, touchesPid]
        rw [ih, openRowCount_applyWrite_insert, if_pos rfl, hproj]
        rfl
      · have hproj : projPid pid (Write.insertEvent n q par exe t :: rest) =
            projPid pid rest := by
          simp [projPid, List.filter_cons, touchesPid, hq]
        rw [ih, openRowCount_applyWrite_insert, if_neg hq, hproj, Nat.add_zero]

theorem openAux_append (l₂ : List Write) :
    ∀ (l₁ : List Write) (a : Nat), openAux a (l₁ ++ l₂) = openAux (openAux a l₁) l₂ := by
  intro l₁
  induction l₁ with
  | nil =>
    intro a
    rfl
  | cons w rest ih =>
    intro a
    cases w with
    | insertEvent n q par exe t => exact ih (a + 1)
    | endUpdate t q => exact ih 0

theorem okFrom_append_end (t : Int) (q : Nat) :
    ∀ (l : List Write) (a : Nat), okFrom a l = true →
      okFrom a (l ++ [Write.endUpdate t q]) = true := by
  intro l
  induction l with
  | nil =>
    intro a _
    rfl
  | cons w rest ih =>
    intro a h
    cases w with
    | insertEvent n p par exe s =>
      simp only [List.cons_append, okFrom, Bool.and_eq_true] at h ⊢
      exact ⟨h.1, ih _ h.2⟩
    | endUpdate t' q' =>
      simp only [List.cons_append, okFrom] at h ⊢
      exact ih _ h

theorem okFrom_append_insert (n : String) (q : Nat) (par exe : String) (t : Int) :
    ∀ (l : List Write) (a : Nat), okFrom a l = true → openAux a l = 0 →
      okFrom a (l ++ [Write.insertEvent n q par exe t]) = true := by
  intro l
  induction l with
  | nil =>
    intro a _ h0
    have ha : a = 0 := h0
    subst ha
    rfl
  | cons w rest ih =>
    intro a h h0
    cases w with
    | insertEvent n' p' par' exe' s' =>
      simp only [List.cons_append, okFrom, Bool.and_eq_true] at h ⊢
      exact ⟨h.1, ih _ h.2 h0⟩
    | endUpdate t' q' =>
      simp only [List.cons_append, okFrom] at h ⊢
      exact ih _ h h0

theorem okFrom_prefix :
    ∀ (p l : List Write) (a : Nat), a ≤ 1 → okFrom a l = true → p <+: l →
      openAux a p ≤ 1 := by
  intro p
  induction p with
  | nil =>
    intro l a ha _ _
    exact ha
  | cons w p' ih =>
    intro l a ha h hpre
    obtain ⟨t, ht⟩ := hpre
    subst ht
    cases w with
    | insertEvent n q par exe s =>
      simp only [List.cons_append, okFrom, Bool.and_eq_true] at h
      have ha1 : a + 1 ≤ 1 := by simpa using h.1
      exact ih (p' ++ t) (a + 1) ha1 h.2 ⟨t, rfl⟩
    | endUpdate s q =>
      simp only [List.cons_append, okFrom] at h
      exact ih (p' ++ t) 0 (by omega) h ⟨t, rfl⟩

theorem alookup_none_of_aset {α β : Type} [DecidableEq α] {m : List (α × β)}
    {k q : α} {v : β} (h : alookup (aset m k v) q = none) : alookup m q = none := by
  rw [alookup_aset] at h
  by_cases hk : k = q
  · rw [if_pos hk] at h
    cases h
  · rw [if_neg hk] at h
    exact h

theorem invC2_mono_procs {s s2 : RefCount.LoggerState} {W : List Write}
    (h : InvC2 s W)
    (hsub : ∀ q, alookup s2.runningProcs q = none → alookup s.runningProcs q = none) :
    InvC2 s2 W :=
  fun q => ⟨(h q).1, fun hq => (h q).2 (hsub q hq)⟩

theorem invC2_removeEntry {s : RefCount.LoggerState} {G : List Write}
    (now : Int) (pid : Nat) (nm : String) (h : InvC2 s G) :
    InvC2 (RefCount.removeEntry s pid nm) (G ++ [Write.endUpdate now pid]) := by
  intro q
  obtain ⟨hok, himp⟩ := h q
  by_cases hq : pid = q
  · subst hq
    have hproj : projPid pid (G ++ [Write.endUpdate now pid]) =
        projPid pid G ++ [Write.endUpdate now pid] := by
      simp [projPid, List.filter_append, touchesPid]
    rw [hproj]
    refine ⟨okFrom_append_end now pid _ 0 hok, fun _ => ?_⟩
    rw [openAux_append]
    rfl
  · have hproj : projPid q (G ++ [Write.endUpdate now pid]) = projPid q G := by
      simp [projPid, List.filter_append, touchesPid, hq]
    rw [hproj]
    refine ⟨hok, fun hnone => himp ?_⟩
    rw [show (RefCount.removeEntry s pid nm).runningProcs =
        aerase s.runningProcs pid from rfl] at hnone
    rw [alookup_aerase, if_neg hq] at hnone
    exact hnone

theorem invC2_endedLoop (now : Int) (cur : List Nat) :
    ∀ (entries : List (Nat × String)) (s : RefCount.LoggerState) (G : List Write),
      InvC2 s G →
      InvC2 (RefCount.endedLoop now cur entries s).1
        (G ++ (RefCount.endedLoop now cur entries s).2) := by
  intro entries
  induction entries with
  | nil =>
    intro s G h
    show InvC2 s (G ++ [])
    rw [List.append_nil]
    exact h
  | cons e rest ih =>
    intro s G h
    obtain ⟨pid, nm⟩ := e
    by_cases hc : pid ∈ cur
    · rw [endedLoop_cons_mem now cur pid nm rest s hc]
      exact ih s G h
    · rw [endedLoop_cons_notMem now cur pid nm rest s hc]
      show InvC2 (RefCount.endedLoop now cur rest (RefCount.removeEntry s pid nm)).1
        (G ++ (Write.endUpdate now pid ::
          (RefCount.endedLoop now cur rest (RefCount.removeEntry s pid nm)).2))
      rw [List.append_cons]
      exact ih _ (G ++ [Write.endUpdate now pid]) (invC2_removeEntry now pid nm h)

theorem invC2_processNewProc (now : Int) (s : RefCount.LoggerState) (ws : List Write)
    (G : List Write) (p : ProcInfo) (h : InvC2 s (G ++ ws)) :
    InvC2 (RefCount.processNewProc now (s, ws) p).1
      (G ++ (RefCount.processNewProc now (s, ws) p).2) := by
  simp only [RefCount.processNewProc]
  split
  · exact h
  next hio =>
    have hnone : alookup s.runningProcs p.pid = none := by
      cases hx : alookup s.runningProcs p.pid
      · rfl
      · rw [hx] at hio
        simp at hio
    split
    · exact h
    next name hname =>
      split
      · exact h
      next hne =>
        split
        · exact h
        next exePath hexe =>
          split
          next hexc =>
            exact invC2_mono_procs h (fun q hq => alookup_none_of_aset hq)
          next hexc =>
            split
            next hpos =>
              exact invC2_mono_procs h (fun q hq => alookup_none_of_aset hq)
            next hnpos =>
              split
              · exact h
              · intro q
                obtain ⟨hok, himp⟩ := h q
                rw [show G ++ (ws ++
                    [Write.insertEvent name p.pid (p.parentName.getD "") exePath now]) =
                    (G ++ ws) ++
                    [Write.insertEvent name p.pid (p.parentName.getD "") exePath now]
                  from (List.append_assoc G ws _).symm]
                by_cases hpq : p.pid = q
                · subst hpq
                  have h0 : openAux 0 (projPid p.pid (G ++ ws)) = 0 := himp hnone
                  have hproj : projPid p.pid ((G ++ ws) ++
                      [Write.insertEvent name p.pid (p.parentName.getD "") exePath now]) =
                      projPid p.pid (G ++ ws) ++
                      [Write.insertEvent name p.pid (p.parentName.getD "") exePath now] := by
                    simp [projPid, List.filter_append, touchesPid]
                  rw [hproj]
                  refine ⟨okFrom_append_insert _ _ _ _ _ _ 0 hok h0, fun hq => ?_⟩
                  simp only at hq
                  rw [alookup_aset, if_pos rfl] at hq
                  cases hq
                · have hproj : projPid q ((G ++ ws) ++
                      [Write.insertEvent name p.pid (p.parentName.getD "") exePath now]) =
                      projPid q (G ++ ws) := by
                    simp [projPid, List.filter_append, touchesPid, hpq]
                  rw [hproj]
                  refine ⟨hok, fun hq => himp ?_⟩
                  simp only at hq
                  rw [alookup_aset, if_neg hpq] at hq
                  exact hq

theorem invC2_newLoop (now : Int) :
    ∀ (procs : List ProcInfo) (s : RefCount.LoggerState) (ws G : List Write),
      InvC2 s (G ++ ws) →
      InvC2 (procs.foldl (RefCount.processNewProc now) (s, ws)).1
        (G ++ (procs.foldl (RefCount.processNewProc now) (s, ws)).2) := by
  intro procs
  induction procs with
  | nil =>
    intro s ws G h
    exact h
  | cons p rest ih =>
    intro s ws G h
    simp only [List.foldl_cons]
    have h' := invC2_processNewProc now s ws G p h
    rcases hpp : RefCount.processNewProc now (s, ws) p with ⟨s', ws'⟩
    rw [hpp] at h'
    exact ih s' ws' G h'

theorem invC2_tick (s : RefCount.LoggerState) (ws : List Write)
    (procs : List ProcInfo) (now : Int) (h : InvC2 s ws) :
    InvC2 (RefCount.tickStep s procs now).1
      (ws ++ (RefCount.tickStep s procs now).2) := by
  have h1 := invC2_endedLoop now (procs.map ProcInfo.pid) s.runningProcs s ws h
  have h2 := invC2_newLoop now procs
    (RefCount.endedLoop now (procs.map ProcInfo.pid) s.runningProcs s).1 []
    (ws ++ (RefCount.endedLoop now (procs.map ProcInfo.pid) s.runningProcs s).2)
    (by simpa using h1)
  show InvC2 (procs.foldl (RefCount.processNewProc now)
      ((RefCount.endedLoop now (procs.map ProcInfo.pid) s.runningProcs s).1, [])).1
    (ws ++ ((RefCount.endedLoop now (procs.map ProcInfo.pid) s.runningProcs s).2 ++
      (procs.foldl (RefCount.processNewProc now)
        ((RefCount.endedLoop now (procs.map ProcInfo.pid) s.runningProcs s).1, [])).2))
  rw [← List.append_assoc]
  exact h2

theorem invC2_run :
    ∀ (events : List RefCount.Event) (s : RefCount.LoggerState) (ws : List Write),
      (∀ e ∈ events, isReset e = false) → InvC2 s ws →
      InvC2 (events.foldl RefCount.stepLogger (s, ws)).1
        (events.foldl RefCount.stepLogger (s, ws)).2 := by
  intro events
  induction events with
  | nil =>
    intro s ws _ h
    exact h
  | cons e rest ih =>
    intro s ws hnr h
    cases e with
    | tick procs now =>
      simp only [List.foldl_cons]
      exact ih _ _ (fun e' he' => hnr e' (List.mem_cons_of_mem _ he'))
        (invC2_tick s ws procs now h)
    | reset =>
      have := hnr _ (List.mem_cons_self _ _)
      simp [isReset] at this

/-- Claim C2, counterexample: the claim asserts the one-open-row-per-pid
invariant survives a reset followed by re-insertion of a still-running
process; in the embedded run (tick, reset, tick with the same process) the
store ends with two rows for pid 1 whose end_time is NULL. -/
theorem c2_counterexample :
    openRowCount (applyWrites []
      (RefCount.runLogger RefCount.initialLoggerState
        [RefCount.Event.tick [sampleEditor 1] 0, RefCount.Event.reset,
         RefCount.Event.tick [sampleEditor 1] 4]).2) 1 = 2 ∧
    ¬ openRowCount (applyWrites []
      (RefCount.runLogger RefCount.initialLoggerState
        [RefCount.Event.tick [sampleEditor 1] 0, RefCount.Event.reset,
         RefCount.Event.tick [sampleEditor 1] 4]).2) 1 ≤ 1 := by
  exact ⟨by decide, by decide⟩

/-- Claim C2 (amended): in every run of the monitor loop from the empty
state that processes no reset signal, after executing any prefix of the
enqueued writes the store holds at most one row with NULL end_time per
process identifier.  (A reset followed by re-insertion of a still-running
process violates the unamended claim.) -/
theorem c2_theorem (events : List RefCount.Event)
    (hnr : ∀ e ∈ events, isReset e = false) (n pid : Nat) :
    openRowCount (applyWrites []
      (((RefCount.runLogger RefCount.initialLoggerState events).2).take n)) pid ≤ 1 := by
  have hinv := invC2_run events RefCount.initialLoggerState []
    hnr (fun q => ⟨rfl, fun _ => rfl⟩)
  obtain ⟨hok, _⟩ := hinv pid
  have hpre : projPid pid (((RefCount.runLogger RefCount.initialLoggerState events).2).take n) <+:
      projPid pid ((RefCount.runLogger RefCount.initialLoggerState events).2) :=
    (List.take_prefix n _).filter _
  have hle := okFrom_prefix _ _ 0 (by omega) hok hpre
  rw [openRowCount_applyWrites]
  exact hle

/-- Claim C2, witness: the amended invariant evaluated on a concrete
reset-free run (a process starts on one tick and ends on the next). -/
theorem c2_witness :
    openRowCount (applyWrites []
      (((RefCount.runLogger RefCount.initialLoggerState
        [RefCount.Event.tick [sampleEditor 1] 0,
         RefCount.Event.tick [] 2]).2).take 2)) 1 ≤ 1 :=
  c2_theorem [RefCount.Event.tick [sampleEditor 1] 0, RefCount.Event.tick [] 2]
    (by decide) 2 1

theorem newLoop_eq (now : Int) :
    ∀ (procs : List ProcInfo) (s1 : RefCount.LoggerState) (s2 : BoolMap.LoggerState)
      (ws : List Write),
      (∀ n, 0 < alookupD s1.runningAppCounts n 0 ↔ n ∈ s2.loggedApps) →
      (∀ n, 0 ≤ alookupD s1.runningAppCounts n 0) →
      (∀ p ∈ procs, alookup s1.runningProcs p.pid = none) →
      (∀ p ∈ procs, p.pid ∉ s2.runningProcs) →
      (procs.map ProcInfo.pid).Nodup →
      (procs.foldl (RefCount.processNewProc now) (s1, ws)).2 =
        (procs.foldl (BoolMap.processNewProc now) (s2, ws)).2 := by
  intro procs
  induction procs with
  | nil =>
    intro s1 s2 ws _ _ _ _ _
    rfl
  | cons p rest ih =>
    intro s1 s2 ws ha hb hf1 hf2 hnd
    simp only [List.map_cons, List.nodup_cons] at hnd
    have fresh1 : alookup s1.runningProcs p.pid = none := hf1 p (List.mem_cons_self _ _)
    have fresh2 : p.pid ∉ s2.runningProcs := hf2 p (List.mem_cons_self _ _)
    have hrestne : ∀ q ∈ rest, ¬ p.pid = q.pid := by
      intro q hq hh
      exact hnd.1 (hh ▸ List.mem_map_of_mem ProcInfo.pid hq)
    have hf1' : ∀ q ∈ rest, alookup s1.runningProcs q.pid = none :=
      fun q hq => hf1 q (List.mem_cons_of_mem _ hq)
    have hf2' : ∀ q ∈ rest, q.pid ∉ s2.runningProcs :=
      fun q hq => hf2 q (List.mem_cons_of_mem _ hq)
    have hfresh1aset : ∀ (nm : String), ∀ q ∈ rest,
        alookup (aset s1.runningProcs p.pid nm) q.pid = none := by
      intro nm q hq
      rw [alookup_aset, if_neg (hrestne q hq)]
      exact hf1' q hq
    simp only [List.foldl_cons]
    cases hname : p.name with
    | none =>
      have e1 : RefCount.processNewProc now (s1, ws) p = (s1, ws) := by
        simp [RefCount.processNewProc, fresh1, hname]
      have e2 : BoolMap.processNewProc now (s2, ws) p = (s2, ws) := by
        simp [BoolMap.processNewProc, BoolMap.shouldLogProcess, fresh2, hname]
      rw [e1, e2]
      exact ih s1 s2 ws ha hb hf1' hf2' hnd.2
    | some name =>
      by_cases hne : name = ""
      · have e1 : RefCount.processNewProc now (s1, ws) p = (s1, ws) := by
          simp [RefCount.processNewProc, fresh1, hname, hne]
        have e2 : BoolMap.processNewProc now (s2, ws) p = (s2, ws) := by
          simp [BoolMap.processNewProc, BoolMap.shouldLogProcess, fresh2, hname, hne]
        rw [e1, e2]
        exact ih s1 s2 ws ha hb hf1' hf2' hnd.2
      · cases hexe : p.exe with
        | none =>
          have e1 : RefCount.processNewProc now (s1, ws) p = (s1, ws) := by
            simp [RefCount.processNewProc, fresh1, hname, hne, hexe]
          have e2 : BoolMap.processNewProc now (s2, ws) p = (s2, ws) := by
            by_cases hD : strToLower name ∈ s2.loggedApps
            · simp [BoolMap.processNewProc, BoolMap.shouldLogProcess, fresh2,
                hname, hne, hD]
            · simp [BoolMap.processNewProc, BoolMap.shouldLogProcess, fresh2,
                hname, hne, hD, hexe]
          rw [e1, e2]
          exact ih s1 s2 ws ha hb hf1' hf2' hnd.2
        | some exePath =>
          by_cases hD : strToLower name ∈ s2.loggedApps
          · have e2 : BoolMap.processNewProc now (s2, ws) p = (s2, ws) := by
              simp [BoolMap.processNewProc, BoolMap.shouldLogProcess, fresh2,
                hname, hne, hD]
            have hpos : 0 < alookupD s1.runningAppCounts (strToLower name) 0 :=
              (ha _).2 hD
            by_cases hexc : ShouldExclude exePath p = true
            · have e1 : RefCount.processNewProc now (s1, ws) p =
                  (⟨aset s1.runningProcs p.pid (strToLower name),
                    s1.runningAppCounts⟩, ws) := by
                simp [RefCount.processNewProc, fresh1, hname, hne, hexe, hexc]
              rw [e1, e2]
              exact ih _ s2 ws ha hb (hfresh1aset _) hf2' hnd.2
            · have e1 : RefCount.processNewProc now (s1, ws) p =
                  (⟨aset s1.runningProcs p.pid (strToLower name),
                    aset s1.runningAppCounts (strToLower name)
                      (alookupD s1.runningAppCounts (strToLower name) 0 + 1)⟩,
                   ws) := by
                simp [RefCount.processNewProc, fresh1, hname, hne, hexe, hexc, hpos]
              rw [e1, e2]
              refine ih _ s2 ws ?_ ?_ (hfresh1aset _) hf2' hnd.2
              · intro n
                dsimp only
                rw [alookupD_aset]
                by_cases hn : strToLower name = n
                · rw [if_pos hn]
                  subst hn
                  constructor
                  · intro _
                    exact hD
                  · intro _
                    omega
                · rw [if_neg hn]
                  exact ha n
              · intro n
                dsimp only
                rw [alookupD_aset]
                by_cases hn : strToLower name = n
                · rw [if_pos hn]
                  have := hb (strToLower name)
                  omega
                · rw [if_neg hn]
                  exact hb n
          · have hnpos : ¬ 0 < alookupD s1.runningAppCounts (strToLower name) 0 :=
              fun hcount => hD ((ha _).1 hcount)
            by_cases hexc : ShouldExclude exePath p = true
            · have e1 : RefCount.processNewProc now (s1, ws) p =
                  (⟨aset s1.runningProcs p.pid (strToLower name),
                    s1.runningAppCounts⟩, ws) := by
                simp [RefCount.processNewProc, fresh1, hname, hne, hexe, hexc]
              have e2 : BoolMap.processNewProc now (s2, ws) p = (s2, ws) := by
                simp [BoolMap.processNewProc, BoolMap.shouldLogProcess, fresh2,
                  hname, hne, hD, hexe, hexc]
              rw [e1, e2]
              exact ih _ s2 ws ha hb (hfresh1aset _) hf2' hnd.2
            · by_cases htr : ShouldTrack exePath p = true
              · have e1 : RefCount.processNewProc now (s1, ws) p =
                    (⟨aset s1.runningProcs p.pid (strToLower name),
                      aset s1.runningAppCounts (strToLower name)
                        (alookupD s1.runningAppCounts (strToLower name) 0 + 1)⟩,
                     ws ++ [Write.insertEvent name p.pid (p.parentName.getD "")
                        exePath now]) := by
                  simp [RefCount.processNewProc, fresh1, hname, hne, hexe, hexc,
                    hnpos, htr]
                have e2 : BoolMap.processNewProc now (s2, ws) p =
                    (⟨p.pid :: s2.runningProcs, strToLower name :: s2.loggedApps⟩,
                     ws ++ [Write.insertEvent name p.pid (p.parentName.getD "")
                        exePath now]) := by
                  simp [BoolMap.processNewProc, BoolMap.shouldLogProcess, fresh2,
                    hname, hne, hD, hexe, hexc, htr]
                rw [e1, e2]
                refine ih _ _ _ ?_ ?_ (hfresh1aset _) ?_ hnd.2
                · intro n
                  dsimp only
                  rw [alookupD_aset]
                  by_cases hn : strToLower name = n
                  · rw [if_pos hn]
                    have := hb (strToLower name)
                    constructor
                    · intro _
                      exact hn ▸ List.mem_cons_self _ _
                    · intro _
                      omega
                  · rw [if_neg hn]
                    rw [List.mem_cons]
                    constructor
                    · intro hcount
                      exact Or.inr ((ha n).1 hcount)
                    · intro hmem
                      rcases hmem with hmem | hmem
                      · exact absurd hmem.symm hn
                      · exact (ha n).2 hmem
                · intro n
                  dsimp only
                  rw [alookupD_aset]
                  by_cases hn : strToLower name = n
                  · rw [if_pos hn]
                    have := hb (strToLower name)
                    omega
                  · rw [if_neg hn]
                    exact hb n
                · intro q hq
                  dsimp only
                  rw [List.mem_cons]
                  rintro (hh | hh)
                  · exact hrestne q hq hh.symm
                  · exact hf2' q hq hh
              · have e1 : RefCount.processNewProc now (s1, ws) p = (s1, ws) := by
                  simp [RefCount.processNewProc, fresh1, hname, hne, hexe, hexc,
                    hnpos, htr]
                have e2 : BoolMap.processNewProc now (s2, ws) p = (s2, ws) := by
                  simp [BoolMap.processNewProc, BoolMap.shouldLogProcess, fresh2,
                    hname, hne, hD, hexe, hexc, htr]
                rw [e1, e2]
                exact ih s1 s2 ws ha hb hf1' hf2' hnd.2

/-- Claim C10, counterexample: the two logger variants are not
behaviourally equivalent.  After the only "editor.exe" instance ends, a
fresh instance of that name on a later tick produces a new insert in the
reference-counting variant but no write at all in the boolean-map variant
(whose `loggedApps` entry is never removed), so the enqueued write
sequences differ. -/
theorem c10_counterexample :
    (RefCount.runLogger RefCount.initialLoggerState
      [RefCount.Event.tick [sampleEditor 1] 0, RefCount.Event.tick [] 2,
       RefCount.Event.tick [sampleEditor 2] 4]).2 ≠
    (BoolMap.runLogger BoolMap.initialLoggerState
      [RefCount.Event.tick [sampleEditor 1] 0, RefCount.Event.tick [] 2,
       RefCount.Event.tick [sampleEditor 2] 4]).2 := by
  decide

/-- Claim C10 (amended): the variants are not equivalent over arbitrary
event sequences (see the counterexample), but they do agree on any single
tick from the empty state: for every snapshot with distinct pids, both
variants enqueue exactly the same write sequence. -/
theorem c10_theorem (procs : List ProcInfo) (now : Int)
    (hnd : (procs.map ProcInfo.pid).Nodup) :
    (RefCount.tickStep RefCount.initialLoggerState procs now).2 =
      (BoolMap.tickStep BoolMap.initialLoggerState procs now).2 := by
  show (procs.foldl (RefCount.processNewProc now) (RefCount.initialLoggerState, [])).2 =
    (procs.foldl (BoolMap.processNewProc now) (BoolMap.initialLoggerState, [])).2
  refine newLoop_eq now procs RefCount.initialLoggerState BoolMap.initialLoggerState []
    ?_ ?_ ?_ ?_ hnd
  · intro n
    simp [RefCount.initialLoggerState, BoolMap.initialLoggerState, alookupD, alookup]
  · intro n
    simp [RefCount.initialLoggerState, alookupD, alookup]
  · intro q _
    rfl
  · intro q _
    simp [BoolMap.initialLoggerState]

/-- Claim C10, witness: the single-tick agreement evaluated on a snapshot
with two same-named processes (one insert each side, same sequence). -/
theorem c10_witness :
    (RefCount.tickStep RefCount.initialLoggerState
      [sampleEditor 1, sampleEditor 2] 3).2 =
      (BoolMap.tickStep BoolMap.initialLoggerState
        [sampleEditor 1, sampleEditor 2] 3).2 :=
  c10_theorem [sampleEditor 1, sampleEditor 2] 3 (by decide)

/-- Claim C1, counterexample: the claimed invariant — every name's stored
instance count equals its number of ledger entries — fails on a reachable
state: one tick observing the monitor's own executable records the pid in
the ledger (Rule 1) without incrementing any count, so the name
"procguard.exe" has one ledger entry but count 0. -/
theorem c1_counterexample :
    ¬ countsMatch (RefCount.runLogger RefCount.initialLoggerState
        [RefCount.Event.tick [sampleProcGuard] 0]).1 := by
  intro h
  exact absurd (h "procguard.exe") (by decide)

/-- Claim C1 (amended): in every reachable state of the monitor loop —
startup seeding from open rows with distinct pids, then any sequence of
ticks and resets in which no observed process is excluded by Rule 1 — the
instance count stored for each lowercase name equals the number of ledger
entries recording that name. -/
theorem c1_theorem (rows : List (Nat × String)) (pidExists : Nat → Bool)
    (now : Int) (events : List RefCount.Event)
    (hnd : (rows.map Prod.fst).Nodup)
    (hnx : ∀ e ∈ events, eventNoExclusion e = true) :
    countsMatch (RefCount.runLogger
      (RefCount.initializeRunningProcs rows pidExists now).1 events).1 :=
  (runLoggerAux_WF events _ [] hnx
    (initializeRunningProcs_WF rows pidExists now hnd)).2

/-- Claim C1, witness: the amended invariant evaluated on a concrete
seeded run. -/
theorem c1_witness :
    alookupD (RefCount.runLogger
      (RefCount.initializeRunningProcs [(5, "Editor.exe")] (fun _ => true) 0).1
      [RefCount.Event.tick [sampleEditor 5, sampleBrowser 7] 2]).1.runningAppCounts
      "editor.exe" 0 =
    (countName (RefCount.runLogger
      (RefCount.initializeRunningProcs [(5, "Editor.exe")] (fun _ => true) 0).1
      [RefCount.Event.tick [sampleEditor 5, sampleBrowser 7] 2]).1.runningProcs
      "editor.exe" : Int) :=
  c1_theorem [(5, "Editor.exe")] (fun _ => true) 0
    [RefCount.Event.tick [sampleEditor 5, sampleBrowser 7] 2]
    (by decide) (by decide) "editor.exe"

/-- Claim C3, counterexample: posting the reset signal while a slot is
already pending is not a non-blocking no-op — the Go send on the full
capacity-1 buffered channel blocks the caller (it neither completes at
once nor leaves the channel as it was). -/
theorem c3_counterexample :
    ResetLoggedApps 1 = none ∧ ¬ ResetLoggedApps 1 = some 1 := by
  exact ⟨rfl, by decide⟩

/-- Claim C3 (amended): a second immediate reset post blocks until the
loop drains the slot and then delivers a second signal (`chanSend 0`
succeeds); nevertheless the resulting ledger and instance-count state is
the same whether the loop handles the signal once or twice — reset
handling is idempotent and leaves both maps empty. -/
theorem c3_theorem :
    (∀ acc : RefCount.LoggerState × List Write,
      RefCount.stepLogger (RefCount.stepLogger acc RefCount.Event.reset)
          RefCount.Event.reset =
        RefCount.stepLogger acc RefCount.Event.reset)
    ∧ (∀ acc : RefCount.LoggerState × List Write,
        (RefCount.stepLogger acc RefCount.Event.reset).1 =
          RefCount.initialLoggerState)
    ∧ chanSend 0 = some 1 :=
  ⟨fun _ => rfl, fun _ => rfl, rfl⟩

/-- Claim C8: the database-writer consumer executes queued requests in
FIFO order and drops each failing request with no retry and no effect on
the store — the loop equals applying exactly the non-failing requests in
order — and a failure never reaches back into the monitor's ledger state. -/
theorem c8_theorem :
    (∀ (execFails : Write → Bool) (db : List AppEventRow) (reqs : List Write),
      StartDatabaseWriter execFails db reqs =
        applyWrites db (reqs.filter fun r => ! execFails r))
    ∧ (∀ (events : List RefCount.Event) (execFails : Write → Bool),
        (systemRun events execFails).1 =
          (RefCount.runLogger RefCount.initialLoggerState events).1) := by
  constructor
  · intro execFails db reqs
    induction reqs generalizing db with
    | nil => rfl
    | cons r rest ih =>
      by_cases h : execFails r = true
      · simp only [StartDatabaseWriter, h, if_true, List.filter_cons,
          Bool.not_true, ih]
        simp
      · have h' : execFails r = false := by
          cases hh : execFails r
          · rfl
          · exact absurd hh h
        simp only [StartDatabaseWriter, h', if_false, List.filter_cons,
          Bool.not_false, ih, applyWrites, List.foldl_cons]
        simp
  · intro events execFails
    rfl

end VedaAnchor
